import Mathlib

/-!
Verification of the session manager, URL parser and state store of the
git-pr-mcp server (src/git_pr_mcp/server.py), via a shallow embedding.

The URL parser `parse_repo_url` applies Python
`re.search(r"(?:https?://[^/]+/|git@[\w.-]+:)([^/]+)/([^/]+)$", url)`
and strips a trailing ".git" from the second capture group.  The regex is
embedded as an executable matcher: `reSearch` tries the pattern at every
start position left to right (Python search semantics); at one position the
pattern is an alternation of two deterministic prefixes (`matchA1` for
`https?://[^/]+/`, `matchA2` for `git@[\w.-]+:`) followed by the two capture
groups (`matchGroups` for `([^/]+)/([^/]+)$`).  Both character classes
exclude the quantifier-stopping character, so greedy matching is
deterministic and no backtracking cases are lost; `\w` is modelled by its
ASCII fragment (letters, digits, underscore), which covers every string
considered here.
-/

namespace GitPrMcp

/-- Match a literal character sequence at the head of the input, returning
the remainder on success (the literal pieces of the regex). -/
def dropLit : List Char → List Char → Option (List Char)
  | [], l => some l
  | _ :: _, [] => none
  | c :: cs, x :: xs => if x = c then dropLit cs xs else none

/-- `[^/]+/` — a nonempty run of non-slash characters followed by a slash,
returning the remainder (the authority part of `https?://[^/]+/`). -/
def matchAuthority (r : List Char) : Option (List Char) :=
  let auth := r.takeWhile (fun c => !(c == '/'))
  let r2 := r.dropWhile (fun c => !(c == '/'))
  if auth = [] then none
  else
    match r2 with
    | '/' :: r3 => some r3
    | _ => none

/-- The `\w` class of the regex (ASCII fragment) together with `.` and `-`:
the characters allowed in the host of the `git@host:` alternative. -/
def isWordDotDash (c : Char) : Bool :=
  c.isAlphanum || c == '_' || c == '.' || c == '-'

/-- First alternative of the regex prefix: `https?://[^/]+/`. -/
def matchA1 (l : List Char) : Option (List Char) :=
  match dropLit ['h', 't', 't', 'p'] l with
  | none => none
  | some r =>
    match dropLit ['s', ':', '/', '/'] r with
    | some r2 => matchAuthority r2
    | none =>
      match dropLit [':', '/', '/'] r with
      | some r2 => matchAuthority r2
      | none => none

/-- Second alternative of the regex prefix: `git@[\w.-]+:`. -/
def matchA2 (l : List Char) : Option (List Char) :=
  match dropLit ['g', 'i', 't', '@'] l with
  | none => none
  | some r =>
    let run := r.takeWhile isWordDotDash
    let r2 := r.dropWhile isWordDotDash
    if run = [] then none
    else
      match r2 with
      | ':' :: r3 => some r3
      | _ => none

/-- The capture groups `([^/]+)/([^/]+)$`: the remainder must decompose as
a nonempty slash-free segment, a slash, and a nonempty slash-free segment
reaching the end of the string.  Both classes exclude `/`, so the
decomposition is unique when it exists. -/
def matchGroups (rest : List Char) : Option (List Char × List Char) :=
  let g1 := rest.takeWhile (fun c => !(c == '/'))
  let r1 := rest.dropWhile (fun c => !(c == '/'))
  match r1 with
  | '/' :: g2 =>
    if g1 = [] then none
    else if g2 = [] then none
    else if g2.all (fun c => !(c == '/')) then some (g1, g2) else none
  | _ => none

/-- Try the whole pattern at one start position.  The two alternatives
begin with distinct literal characters (`h` versus `g`), so trying the
second only when the first's prefix fails loses no match. -/
def matchAt (l : List Char) : Option (List Char × List Char) :=
  match matchA1 l with
  | some r => matchGroups r
  | none =>
    match matchA2 l with
    | some r => matchGroups r
    | none => none

/-- Python `re.search`: try the pattern at each start position from the
left; the pattern never matches the empty suffix (it needs at least one
character), so stopping at the empty list is faithful. -/
def reSearch : List Char → Option (List Char × List Char)
  | [] => none
  | c :: t =>
    match matchAt (c :: t) with
    | some g => some g
    | none => reSearch t

/-- Recognize a trailing `.git` on a reversed character list. -/
def stripGitRev : List Char → Option (List Char)
  | 't' :: 'i' :: 'g' :: '.' :: r => some r
  | _ => none

/-- Python `name_with_suffix.endswith(".git")`. -/
def endsWithGit (l : List Char) : Bool :=
  (stripGitRev l.reverse).isSome

/-- Python `name_with_suffix[:-4] if it ends with ".git" else unchanged`. -/
def stripGitSuffix (l : List Char) : List Char :=
  match stripGitRev l.reverse with
  | some r => r.reverse
  | none => l

/-- `_parse_repo_url` (server.py:66-82; the leading underscore of the source name is not usable in Lean terms): regex search, then strip a
trailing `.git` from the name group; `(None, None)` when no match. -/
def parse_repo_url (s : String) : Option String × Option String :=
  match reSearch s.data with
  | some (o, n) => (some (String.mk o), some (String.mk (stripGitSuffix n)))
  | none => (none, none)

/-!
### Session, durable state and filesystem model

`active_repo_details` (server.py:18-23) is the single mutable session
record; `_save_state`/`_load_state` (server.py:25-54) persist it to the
state file.  The filesystem is modelled as the set of existing directories
(a Boolean membership function) plus the parsed content of the state file
(`none` models a missing or unparseable file — both are handled by the same
`except`/absence branches of `_load_state`).  Python truthiness of an
optional string field (`if not details["path"]` and similar) is
`truthyOpt`: `None` and the empty string are falsy.
-/

structure ActiveSession where
  path : Option String
  url : Option String
  owner : Option String
  name : Option String
deriving DecidableEq, Repr

/-- The default record: all four fields absent. -/
def emptySession : ActiveSession := ⟨none, none, none, none⟩

/-- Python truthiness of a string: the empty string is falsy. -/
def strTruthy (s : String) : Bool := !(s == "")

/-- Python truthiness of an optional string: `None` and `""` are falsy. -/
def truthyOpt : Option String → Bool
  | none => false
  | some s => strTruthy s

/-- The parts of the filesystem the server touches: which directories
exist, and the parsed content of `active_repo_state.json`. -/
structure World where
  dirs : String → Bool
  stateFile : Option ActiveSession

/-- `shutil.rmtree` on a directory (successful case). -/
def World.rmDir (w : World) (d : String) : World :=
  { w with dirs := fun x => if x == d then false else w.dirs x }

/-- `tempfile.mkdtemp` / directory creation. -/
def World.mkDir (w : World) (d : String) : World :=
  { w with dirs := fun x => if x == d then true else w.dirs x }

/-- Overwrite the state file with a serialized record. -/
def World.writeState (w : World) (s : ActiveSession) : World :=
  { w with stateFile := some s }

/-- `_save_state` (server.py:25-32): dump the in-memory record to the state
file, overwriting any prior contents. -/
def save_state (mem : ActiveSession) (w : World) : World :=
  w.writeState mem

/-- `_load_state` (server.py:34-54): keep the current (default) record when
the file is missing or unparseable; when a record is read, adopt it only if
its `path` is truthy and references an existing directory, otherwise
discard the whole record and keep the current one. -/
def load_state (w : World) (current : ActiveSession) : ActiveSession :=
  match w.stateFile with
  | some r =>
    match r.path with
    | some p => if strTruthy p && w.dirs p then r else current
    | none => current
  | none => current

/-!
### The clone operation (`clone_repository`, server.py:308-394)

The run of one call is modelled as a composition of its four phases, with
the environment-dependent outcomes as explicit parameters: the exit of the
external `git clone` (`CloneOutcome`), whether `shutil.rmtree` of the
previous directory raises (`priorRmtreeFails`, caught at server.py:326),
and whether `shutil.rmtree` of the fresh temporary directory raises in a
failure handler (`tempRmtreeFails`, caught at server.py:377/391).  The
fresh name chosen by `tempfile.mkdtemp` is the parameter `tmp`.  State-file
writes are modelled as succeeding (`_save_state` swallows write errors and
in-memory state stays authoritative, server.py:31-32).  The `else` branch
at server.py:366-369 is dead code: with `check=True` a nonzero exit raises
`CalledProcessError`, so failures are exactly the three handlers.
-/

inductive CloneOutcome where
  | success
  | exitError (stderr : String)
  | gitMissing
  | unexpected (msg : String)
deriving DecidableEq, Repr

structure CloneEnv where
  tmp : String
  outcome : CloneOutcome
  priorRmtreeFails : Bool
  tempRmtreeFails : Bool

/-- The in-memory record together with the filesystem. -/
structure ProcState where
  mem : ActiveSession
  world : World

/-- Phase 1 (server.py:319-328): if the active session has a truthy path
naming an existing directory, attempt to remove it recursively; a raising
`rmtree` is caught and downgraded to a warning. -/
def cloneCleanupPrev (e : CloneEnv) (st : ProcState) : ProcState :=
  match st.mem.path with
  | some p =>
    if strTruthy p && st.world.dirs p then
      if e.priorRmtreeFails then st else { st with world := st.world.rmDir p }
    else st
  | none => st

/-- Phase 2 (server.py:330-332): unconditionally reset the in-memory
record to empty and persist the cleared record. -/
def cloneReset (st : ProcState) : ProcState :=
  { mem := emptySession, world := st.world.writeState emptySession }

/-- Phase 3 (server.py:337): create the fresh temporary clone target. -/
def cloneMkTemp (e : CloneEnv) (st : ProcState) : ProcState :=
  { st with world := st.world.mkDir e.tmp }

/-- The failure handlers' cleanup (server.py:367-368, 373-378, 387-392):
remove the temporary directory if it is truthy and exists; a raising
`rmtree` is caught and the directory stays. -/
def rmTempBestEffort (e : CloneEnv) (st : ProcState) : ProcState :=
  if strTruthy e.tmp && st.world.dirs e.tmp && !e.tempRmtreeFails then
    { st with world := st.world.rmDir e.tmp }
  else st

def gitNotFoundMsg : String :=
  "Error: Git command not found. Please ensure Git is installed and in your PATH."

/-- Phase 4 (server.py:340-394): run the external clone and finish.  On
success, parse the URL, populate all four fields, persist, and return the
success text; on `CalledProcessError` or an unexpected exception, remove
the temporary directory best-effort and return the error text; on
`FileNotFoundError` (git executable missing) return the error text with no
cleanup at all — the handler at server.py:381-384 has none. -/
def cloneExec (repoUrl : String) (e : CloneEnv) (st : ProcState) : String × ProcState :=
  match e.outcome with
  | CloneOutcome.success =>
    let pr := parse_repo_url repoUrl
    let sess : ActiveSession :=
      { path := some e.tmp, url := some repoUrl, owner := pr.1, name := pr.2 }
    let base :=
      "Repository " ++ repoUrl ++ " cloned successfully to " ++ e.tmp ++
        " and set as active. State saved."
    let msg :=
      if truthyOpt pr.1 && truthyOpt pr.2 then
        base ++ " Parsed owner: \x27" ++ pr.1.getD "" ++ "\x27, name: \x27" ++
          pr.2.getD "" ++ "\x27."
      else base ++ " Could not parse owner/name from URL for GitHub operations."
    (msg, { mem := sess, world := st.world.writeState sess })
  | CloneOutcome.exitError stderr =>
    ("Error cloning repository " ++ repoUrl ++ ": " ++ stderr, rmTempBestEffort e st)
  | CloneOutcome.gitMissing =>
    (gitNotFoundMsg, st)
  | CloneOutcome.unexpected m =>
    ("An unexpected error occurred during clone: " ++ m, rmTempBestEffort e st)

/-- `clone_repository` (server.py:308-394): the four phases in source
order — cleanup of the previous clone, reset-and-persist, fresh temporary
directory, external clone and completion. -/
def clone_repository (repoUrl : String) (e : CloneEnv) (st : ProcState) :
    String × ProcState :=
  cloneExec repoUrl e (cloneMkTemp e (cloneReset (cloneCleanupPrev e st)))

/-!
### Precondition gates of the session-scoped tools

Each gated tool begins with `if not active_repo_details["path"]: return
"Error: No active repository. ..."` (server.py:408, 457, 532, 648, 694,
732); `create_github_pr` instead checks owner and name first and picks the
message by whether a path is present (server.py:594-599).  Each gate is a
pure early-return check: it reads the record, mutates nothing, and every
tool converts faults to returned text, so the gate's value is `some errText`
(the operation stops with that text) or `none` (it proceeds).
-/

def noActiveRepoMsg : String :=
  "Error: No active repository. Please clone a repository first using \x27clone_repository\x27."

def ownerNameIncompleteMsg : String :=
  "Error: Active repository details (owner/name) not found or incomplete. " ++
    "Ensure the repository was cloned successfully and owner/name could be parsed from the URL."

def create_git_branch_gate (s : ActiveSession) : Option String :=
  if truthyOpt s.path then none else some noActiveRepoMsg

def git_commit_changes_gate (s : ActiveSession) : Option String :=
  if truthyOpt s.path then none else some noActiveRepoMsg

def git_push_branch_gate (s : ActiveSession) : Option String :=
  if truthyOpt s.path then none else some noActiveRepoMsg

def read_file_in_repo_gate (s : ActiveSession) : Option String :=
  if truthyOpt s.path then none else some noActiveRepoMsg

def write_file_in_repo_gate (s : ActiveSession) : Option String :=
  if truthyOpt s.path then none else some noActiveRepoMsg

def list_files_in_repo_gate (s : ActiveSession) : Option String :=
  if truthyOpt s.path then none else some noActiveRepoMsg

/-- The guard of `create_github_pr` (server.py:594-599): blocked when owner
or name is falsy; the message is the no-active-repository text when the
path is falsy, the incomplete-identity text otherwise. -/
def create_github_pr_gate (s : ActiveSession) : Option String :=
  if !truthyOpt s.owner || !truthyOpt s.name then
    some (if !truthyOpt s.path then noActiveRepoMsg else ownerNameIncompleteMsg)
  else none

/-!
### File targets of `read_file_in_repo` / `write_file_in_repo`

Both tools compute `os.path.join(base_path, relative_file_path)` with no
normalization or containment check (server.py:652, 700).  `posixpath.join`
is modelled exactly: an absolute second argument replaces the first, and
otherwise a separator is inserted unless one is already present.  To state
where the accessed file really lives, a path is resolved to its component
list: split on `/`, drop empty components, then fold `..` (pop) and `.`
(skip) as `os.path.normpath` does on absolute paths; `isUnderRoot` asks
whether the resolved root is a prefix of the resolved target.
-/

/-- `posixpath.join` for two character lists. -/
def joinChars (a b : List Char) : List Char :=
  if b.head? = some '/' then b
  else if a = [] then b
  else if a.getLast? = some '/' then a ++ b
  else a ++ '/' :: b

/-- `os.path.join` for two strings (POSIX rules). -/
def osPathJoin (a b : String) : String :=
  String.mk (joinChars a.data b.data)

/-- The absolute path opened by `read_file_in_repo` (server.py:646-652),
`none` when the gate rejects the call. -/
def read_file_in_repo_target (s : ActiveSession) (rel : String) : Option String :=
  match s.path with
  | some base => if strTruthy base then some (osPathJoin base rel) else none
  | none => none

/-- The absolute path written by `write_file_in_repo` (server.py:694-711),
`none` when the gate rejects the call. -/
def write_file_in_repo_target (s : ActiveSession) (rel : String) : Option String :=
  match s.path with
  | some base => if strTruthy base then some (osPathJoin base rel) else none
  | none => none

/-- Split a character list at every slash. -/
def splitChars : List Char → List (List Char)
  | [] => [[]]
  | c :: t =>
    if c = '/' then [] :: splitChars t
    else
      match splitChars t with
      | h :: r => (c :: h) :: r
      | [] => [[c]]

/-- The nonempty slash-separated components of a path string. -/
def comps (s : String) : List (List Char) :=
  (splitChars s.data).filter (fun c => !c.isEmpty)

/-- One step of lexical resolution: `..` pops, `.` is dropped, anything
else is appended. -/
def resolveStep (acc : List (List Char)) (c : List Char) : List (List Char) :=
  if c = ['.', '.'] then acc.dropLast
  else if c = ['.'] then acc
  else acc ++ [c]

/-- The resolved component list of an absolute path. -/
def resolvedOf (s : String) : List (List Char) :=
  (comps s).foldl resolveStep []

/-- Whether the file at `full` lies at or below the directory `base`, after
lexical resolution of `.` and `..`. -/
def isUnderRoot (base full : String) : Bool :=
  (resolvedOf base).isPrefixOf (resolvedOf full)

/-!
### Helper lemmas

String-to-character-list bookkeeping, deterministic-span lemmas for the
greedy character classes, and the behaviour of each regex piece on a
well-shaped input.
-/

set_option maxRecDepth 8192

theorem strCat (a b : String) : (a ++ b).data = a.data ++ b.data := rfl

theorem mkData (s : String) : String.mk s.data = s := rfl

theorem dataNeNil {s : String} (h : s ≠ "") : s.data ≠ [] := by
  intro hd
  exact h (by rw [← mkData s, hd])

theorem dataNe {s : String} (h : s.data ≠ []) : s ≠ "" := by
  intro he
  subst he
  exact h rfl

/-- Splitting `takeWhile`/`dropWhile` at the first failing character: a
greedy class that cannot cross its stopping character is deterministic. -/
theorem span_middle (p : Char → Bool) :
    ∀ (xs : List Char) (c : Char) (ys : List Char),
      (∀ x ∈ xs, p x = true) → p c = false →
      (xs ++ c :: ys).takeWhile p = xs ∧ (xs ++ c :: ys).dropWhile p = c :: ys
  | [], c, ys, _, hc => by
    simp [List.takeWhile_cons, List.dropWhile_cons, hc]
  | x :: xs, c, ys, hall, hc => by
    have hx : p x = true := hall x (by simp)
    have ih := span_middle p xs c ys (fun y hy => hall y (by simp [hy])) hc
    simp [List.takeWhile_cons, List.dropWhile_cons, hx, ih.1, ih.2]

theorem matchAuthority_eq (host rest : List Char) (h1 : host ≠ [])
    (h2 : ∀ c ∈ host, c ≠ '/') :
    matchAuthority (host ++ '/' :: rest) = some rest := by
  have hall : ∀ c ∈ host, (!(c == '/')) = true := by
    intro c hc
    simp [beq_eq_false_iff_ne.mpr (h2 c hc)]
  obtain ⟨ht, hd⟩ := span_middle _ host '/' rest hall (by decide)
  simp [matchAuthority, ht, hd, h1]

theorem matchGroups_eq (o n : List Char) (hO : o ≠ []) (hO2 : ∀ c ∈ o, c ≠ '/')
    (hN : n ≠ []) (hN2 : ∀ c ∈ n, c ≠ '/') :
    matchGroups (o ++ '/' :: n) = some (o, n) := by
  have hall : ∀ c ∈ o, (!(c == '/')) = true := by
    intro c hc
    simp [beq_eq_false_iff_ne.mpr (hO2 c hc)]
  obtain ⟨ht, hd⟩ := span_middle _ o '/' n hall (by decide)
  have hnall : n.all (fun c => !(c == '/')) = true := by
    rw [List.all_eq_true]
    intro c hc
    simp [beq_eq_false_iff_ne.mpr (hN2 c hc)]
  simp [matchGroups, ht, hd, hO, hN, hnall]

theorem matchA1_http (r : List Char) :
    matchA1 ('h' :: 't' :: 't' :: 'p' :: ':' :: '/' :: '/' :: r) = matchAuthority r := by
  simp [matchA1, dropLit]

theorem matchA1_https (r : List Char) :
    matchA1 ('h' :: 't' :: 't' :: 'p' :: 's' :: ':' :: '/' :: '/' :: r) = matchAuthority r := by
  simp [matchA1, dropLit]

theorem matchA2_git (host rest : List Char) (h1 : host ≠ [])
    (h2 : ∀ c ∈ host, isWordDotDash c = true) :
    matchA2 ('g' :: 'i' :: 't' :: '@' :: (host ++ ':' :: rest)) = some rest := by
  obtain ⟨ht, hd⟩ := span_middle isWordDotDash host ':' rest h2 (by decide)
  simp [matchA2, dropLit, ht, hd, h1]

theorem matchA1_git (l : List Char) : matchA1 ('g' :: l) = none := by
  simp [matchA1, dropLit]

/-- A match found at the current start position is what `re.search`
returns (leftmost start wins). -/
theorem reSearch_here (l : List Char) (g : List Char × List Char)
    (h : matchAt l = some g) : reSearch l = some g := by
  cases l with
  | nil => simp [matchAt, matchA1, matchA2, dropLit] at h
  | cons c t => simp [reSearch, h]

theorem stripGit_append (l : List Char) :
    stripGitSuffix (l ++ ['.', 'g', 'i', 't']) = l := by
  simp [stripGitSuffix, stripGitRev, List.reverse_append]

theorem stripGit_of_not {l : List Char} (h : endsWithGit l = false) :
    stripGitSuffix l = l := by
  unfold endsWithGit at h
  unfold stripGitSuffix
  cases hr : stripGitRev l.reverse with
  | none => rfl
  | some r => rw [hr] at h; simp at h

/-- The parser on a well-shaped scheme URL (`http` or `https`): owner and
name are the last two path segments, the name with a trailing `.git`
stripped. -/
theorem parse_scheme_shape (scheme host o n : String)
    (hs : scheme = "http" ∨ scheme = "https")
    (hh : host ≠ "") (hh2 : ∀ c ∈ host.data, c ≠ '/')
    (hO : o ≠ "") (hO2 : ∀ c ∈ o.data, c ≠ '/')
    (hN : n ≠ "") (hN2 : ∀ c ∈ n.data, c ≠ '/') :
    parse_repo_url (scheme ++ "://" ++ host ++ "/" ++ o ++ "/" ++ n) =
      (some o, some (String.mk (stripGitSuffix n.data))) := by
  have hgroups : matchGroups (o.data ++ '/' :: n.data) = some (o.data, n.data) :=
    matchGroups_eq _ _ (dataNeNil hO) hO2 (dataNeNil hN) hN2
  have hauth : matchAuthority (host.data ++ '/' :: (o.data ++ '/' :: n.data)) =
      some (o.data ++ '/' :: n.data) :=
    matchAuthority_eq _ _ (dataNeNil hh) hh2
  have e1 : ("://" : String).data = [':', '/', '/'] := rfl
  have e2 : ("/" : String).data = ['/'] := rfl
  rcases hs with hs | hs <;> subst hs
  case inl =>
    have e0 : ("http" : String).data = ['h', 't', 't', 'p'] := rfl
    have hd : ("http" ++ "://" ++ host ++ "/" ++ o ++ "/" ++ n).data =
        'h' :: 't' :: 't' :: 'p' :: ':' :: '/' :: '/' ::
          (host.data ++ '/' :: (o.data ++ '/' :: n.data)) := by
      simp [strCat, e0, e1, e2]
    have hAt : matchAt ('h' :: 't' :: 't' :: 'p' :: ':' :: '/' :: '/' ::
        (host.data ++ '/' :: (o.data ++ '/' :: n.data))) = some (o.data, n.data) := by
      simp [matchAt, matchA1_http, hauth, hgroups]
    have hS := reSearch_here _ _ hAt
    simp [parse_repo_url, hd, hS, mkData]
  case inr =>
    have e0 : ("https" : String).data = ['h', 't', 't', 'p', 's'] := rfl
    have hd : ("https" ++ "://" ++ host ++ "/" ++ o ++ "/" ++ n).data =
        'h' :: 't' :: 't' :: 'p' :: 's' :: ':' :: '/' :: '/' ::
          (host.data ++ '/' :: (o.data ++ '/' :: n.data)) := by
      simp [strCat, e0, e1, e2]
    have hAt : matchAt ('h' :: 't' :: 't' :: 'p' :: 's' :: ':' :: '/' :: '/' ::
        (host.data ++ '/' :: (o.data ++ '/' :: n.data))) = some (o.data, n.data) := by
      simp [matchAt, matchA1_https, hauth, hgroups]
    have hS := reSearch_here _ _ hAt
    simp [parse_repo_url, hd, hS, mkData]

/-- The parser on a well-shaped `git@host:` URL. -/
theorem parse_ssh_shape (host o n : String)
    (hh : host ≠ "") (hh2 : ∀ c ∈ host.data, isWordDotDash c = true)
    (hO : o ≠ "") (hO2 : ∀ c ∈ o.data, c ≠ '/')
    (hN : n ≠ "") (hN2 : ∀ c ∈ n.data, c ≠ '/') :
    parse_repo_url ("git@" ++ host ++ ":" ++ o ++ "/" ++ n) =
      (some o, some (String.mk (stripGitSuffix n.data))) := by
  have hgroups : matchGroups (o.data ++ '/' :: n.data) = some (o.data, n.data) :=
    matchGroups_eq _ _ (dataNeNil hO) hO2 (dataNeNil hN) hN2
  have e0 : ("git@" : String).data = ['g', 'i', 't', '@'] := rfl
  have e1 : (":" : String).data = [':'] := rfl
  have e2 : ("/" : String).data = ['/'] := rfl
  have hd : ("git@" ++ host ++ ":" ++ o ++ "/" ++ n).data =
      'g' :: 'i' :: 't' :: '@' :: (host.data ++ ':' :: (o.data ++ '/' :: n.data)) := by
    simp [strCat, e0, e1, e2]
  have hA2 := matchA2_git host.data (o.data ++ '/' :: n.data) (dataNeNil hh) hh2
  have hAt : matchAt ('g' :: 'i' :: 't' :: '@' ::
      (host.data ++ ':' :: (o.data ++ '/' :: n.data))) = some (o.data, n.data) := by
    simp [matchAt, matchA1_git, hA2, hgroups]
  have hS := reSearch_here _ _ hAt
  simp [parse_repo_url, hd, hS, mkData]

theorem gitSuffix_data (n : String) :
    (n ++ ".git").data = n.data ++ ['.', 'g', 'i', 't'] := by
  have e : (".git" : String).data = ['.', 'g', 'i', 't'] := rfl
  simp [strCat, e]

theorem gitSuffix_ne (n : String) : n ++ ".git" ≠ "" := by
  apply dataNe
  rw [gitSuffix_data]
  simp

theorem gitSuffix_noSlash (n : String) (hN2 : ∀ c ∈ n.data, c ≠ '/') :
    ∀ c ∈ (n ++ ".git").data, c ≠ '/' := by
  rw [gitSuffix_data]
  intro c hc
  rcases List.mem_append.mp hc with h | h
  · exact hN2 c h
  · simp at h
    rcases h with h | h | h | h <;> subst h <;> decide

theorem mk_strip_gitSuffix (n : String) :
    String.mk (stripGitSuffix (n ++ ".git").data) = n := by
  rw [gitSuffix_data, stripGit_append, mkData]

/-- Host characters of the `git@` shape cannot be slashes. -/
theorem wordDotDash_noSlash (host : String)
    (hh2 : ∀ c ∈ host.data, isWordDotDash c = true) : ∀ c ∈ host.data, c ≠ '/' := by
  intro c hc he
  subst he
  have := hh2 '/' hc
  simp [isWordDotDash] at this

theorem rmTempBestEffort_dirs_false (e : CloneEnv) (st : ProcState) (x : String)
    (h : st.world.dirs x = false) : (rmTempBestEffort e st).world.dirs x = false := by
  unfold rmTempBestEffort
  split
  · cases hxe : (x == e.tmp) <;> simp [World.rmDir, hxe, h]
  · exact h

theorem rmTempBestEffort_stateFile (e : CloneEnv) (st : ProcState) :
    (rmTempBestEffort e st).world.stateFile = st.world.stateFile := by
  unfold rmTempBestEffort
  split
  · rfl
  · rfl

theorem splitChars_ne_nil : ∀ l : List Char, splitChars l ≠ []
  | [] => by simp [splitChars]
  | c :: t => by
    unfold splitChars
    split
    · simp
    · cases h : splitChars t with
      | nil => simp
      | cons h r => simp

theorem splitChars_cons (c : Char) (t : List Char) :
    splitChars (c :: t) =
      if c = '/' then [] :: splitChars t
      else
        match splitChars t with
        | h :: r => (c :: h) :: r
        | [] => [[c]] := by
  simp [splitChars]

/-- Splitting distributes over concatenation at a slash. -/
theorem splitChars_append_slash :
    ∀ xs ys : List Char, splitChars (xs ++ '/' :: ys) = splitChars xs ++ splitChars ys
  | [], ys => by
    rw [List.nil_append, splitChars_cons]
    simp [splitChars]
  | c :: t, ys => by
    rw [List.cons_append, splitChars_cons, splitChars_cons c t]
    by_cases hc : c = '/'
    · rw [if_pos hc, if_pos hc, splitChars_append_slash t ys]
      simp
    · rw [if_neg hc, if_neg hc]
      obtain ⟨h, r, hh⟩ := List.exists_cons_of_ne_nil (splitChars_ne_nil t)
      have ih := splitChars_append_slash t ys
      rw [hh, List.cons_append] at ih
      rw [hh, ih]
      rfl

/-- Resolving components that contain no `..` only ever extends the
accumulator, so the accumulator stays an initial segment. -/
theorem foldl_resolve_extends :
    ∀ (v : List (List Char)) (w : List (List Char)), ['.', '.'] ∉ v →
      w <+: v.foldl resolveStep w
  | [], w, _ => List.prefix_refl w
  | c :: t, w, hv => by
    have hc : c ≠ ['.', '.'] := fun h => hv (by simp [h])
    have hstep : w <+: resolveStep w c := by
      unfold resolveStep
      rw [if_neg hc]
      split
      · exact List.prefix_refl w
      · exact List.prefix_append w [c]
    have ih := foldl_resolve_extends t (resolveStep w c) (fun h => hv (by simp [h]))
    simpa using hstep.trans ih

theorem isPrefixOf_append_self :
    ∀ u v : List (List Char), u.isPrefixOf (u ++ v) = true
  | [], _ => by simp [List.isPrefixOf]
  | c :: t, v => by
    simp [List.isPrefixOf, isPrefixOf_append_self t v]

/-- Decomposition of a path whose character list ends in a slash. -/
theorem ends_slash_decomp (a : List Char) (hne : a ≠ []) (hl : a.getLast? = some '/') :
    a = a.dropLast ++ ['/'] := by
  have hg : a.getLast hne = '/' := by
    have := List.getLast?_eq_getLast a hne
    rw [this] at hl
    exact Option.some.inj hl
  conv_lhs => rw [← List.dropLast_append_getLast hne]
  rw [hg]

/-!
### The claims
-/

/-- Claim C1: in every call to the clone operation, before the external
clone command is invoked (and before the temporary target directory is
created), the in-memory session has been reset to all-absent fields and
that empty record has been persisted to the state file; the persisted
record during the external clone is therefore `emptySession`, which
references no directory.  The first conjunct states that
`clone_repository` runs the external command exactly on the state built by
cleanup, reset and mkdtemp, in source order; the remaining conjuncts state
that at the reset point and still at the point the external command runs,
memory and the state file hold the empty record. -/
theorem claim_C1_reset_persisted_before_clone (repoUrl : String) (e : CloneEnv)
    (st : ProcState) :
    clone_repository repoUrl e st =
      cloneExec repoUrl e (cloneMkTemp e (cloneReset (cloneCleanupPrev e st))) ∧
    (cloneReset (cloneCleanupPrev e st)).mem = emptySession ∧
    (cloneReset (cloneCleanupPrev e st)).world.stateFile = some emptySession ∧
    (cloneMkTemp e (cloneReset (cloneCleanupPrev e st))).mem = emptySession ∧
    (cloneMkTemp e (cloneReset (cloneCleanupPrev e st))).world.stateFile = some emptySession :=
  ⟨rfl, rfl, rfl, rfl, rfl⟩

/-- Claim C2, evaluated at the failing input: when the git executable is
missing (`FileNotFoundError` from `subprocess.run`), the clone returns the
failure text and leaves the session empty in memory and on disk — but the
temporary directory created for the clone still exists afterwards, because
the handler at server.py:381-384 performs no cleanup, contradicting the
claim that the temporary directory no longer exists for every failing
clone. -/
theorem claim_C2_git_missing_keeps_tmpdir :
    (clone_repository "https://github.com/a/b.git"
        ⟨"/tmp/mcp_clone_a", CloneOutcome.gitMissing, false, false⟩
        ⟨emptySession, ⟨fun _ => false, none⟩⟩).1 = gitNotFoundMsg ∧
    (clone_repository "https://github.com/a/b.git"
        ⟨"/tmp/mcp_clone_a", CloneOutcome.gitMissing, false, false⟩
        ⟨emptySession, ⟨fun _ => false, none⟩⟩).2.mem = emptySession ∧
    (clone_repository "https://github.com/a/b.git"
        ⟨"/tmp/mcp_clone_a", CloneOutcome.gitMissing, false, false⟩
        ⟨emptySession, ⟨fun _ => false, none⟩⟩).2.world.stateFile = some emptySession ∧
    (clone_repository "https://github.com/a/b.git"
        ⟨"/tmp/mcp_clone_a", CloneOutcome.gitMissing, false, false⟩
        ⟨emptySession, ⟨fun _ => false, none⟩⟩).2.world.dirs "/tmp/mcp_clone_a" = true := by
  decide

/-- Claim C3 counterexample: an active session references the existing
directory `/d`; the recursive deletion of `/d` raises (the handler at
server.py:326-328 downgrades this to a warning and continues) and the
subsequent clone succeeds — yet `/d` is still on disk afterwards, so the
claim that a subsequent clone always leaves D absent from the filesystem
is false as stated. -/
theorem claim_C3_counterexample :
    (clone_repository "https://github.com/a/b.git"
        ⟨"/t", CloneOutcome.success, true, false⟩
        ⟨⟨some "/d", some "u", some "o", some "n"⟩,
         ⟨fun x => x == "/d", some ⟨some "/d", some "u", some "o", some "n"⟩⟩⟩).2.world.dirs "/d" =
      true := by decide

/-- Claim C3 amended: for a session whose path references an existing
directory `d`, a subsequent clone — whatever its outcome — leaves `d`
absent from the filesystem provided the recursive deletion of `d` does not
raise, and in every case (including a failing deletion) the persisted
record afterwards does not reference `d`: its `path` field (the only field
denoting a directory) is never `some d`, being either the fresh temporary
directory (success) or absent (failure). -/
theorem claim_C3_replace (repoUrl : String) (e : CloneEnv) (st : ProcState) (d : String)
    (hp : st.mem.path = some d) (hd : d ≠ "") (hdir : st.world.dirs d = true)
    (htmp : e.tmp ≠ d) :
    (e.priorRmtreeFails = false →
      (clone_repository repoUrl e st).2.world.dirs d = false) ∧
    (∀ r, (clone_repository repoUrl e st).2.world.stateFile = some r → r.path ≠ some d) := by
  have hne : (d == "") = false := beq_eq_false_iff_ne.mpr hd
  have hdt : (d == e.tmp) = false := beq_eq_false_iff_ne.mpr (fun h => htmp h.symm)
  constructor
  · intro hfault
    have hclean : cloneCleanupPrev e st = { st with world := st.world.rmDir d } := by
      simp [cloneCleanupPrev, hp, strTruthy, hne, hdir, hfault]
    have hdt2 : ¬ d = e.tmp := fun h => htmp h.symm
    have hmid : (cloneMkTemp e (cloneReset (cloneCleanupPrev e st))).world.dirs d = false := by
      rw [hclean]
      simp [cloneMkTemp, cloneReset, World.mkDir, World.writeState, World.rmDir, hdt, hdt2]
    unfold clone_repository
    cases ho : e.outcome with
    | success => simpa [cloneExec, ho, World.writeState] using hmid
    | exitError stderr =>
      simp [cloneExec, ho]
      exact rmTempBestEffort_dirs_false _ _ _ hmid
    | gitMissing => simpa [cloneExec, ho] using hmid
    | unexpected m =>
      simp [cloneExec, ho]
      exact rmTempBestEffort_dirs_false _ _ _ hmid
  · intro r hr
    have hmidsf : (cloneMkTemp e (cloneReset (cloneCleanupPrev e st))).world.stateFile =
        some emptySession := rfl
    unfold clone_repository at hr
    cases ho : e.outcome with
    | success =>
      simp [cloneExec, ho, World.writeState] at hr
      intro hcontra
      rw [← hr] at hcontra
      simp at hcontra
      exact htmp hcontra
    | exitError stderr =>
      simp [cloneExec, ho, rmTempBestEffort_stateFile] at hr
      rw [hmidsf] at hr
      have hre := Option.some.inj hr
      rw [← hre]
      simp [emptySession]
    | gitMissing =>
      simp [cloneExec, ho] at hr
      rw [hmidsf] at hr
      have hre := Option.some.inj hr
      rw [← hre]
      simp [emptySession]
    | unexpected m =>
      simp [cloneExec, ho, rmTempBestEffort_stateFile] at hr
      rw [hmidsf] at hr
      have hre := Option.some.inj hr
      rw [← hre]
      simp [emptySession]

/-- Claim C3 witness: the amended theorem applied to a successful clone
replacing the active session on `/d`, with the deletion succeeding. -/
theorem claim_C3_witness :
    ((clone_repository "https://github.com/a/b.git"
        ⟨"/t", CloneOutcome.success, false, false⟩
        ⟨⟨some "/d", some "u", some "o", some "n"⟩,
         ⟨fun x => x == "/d", some ⟨some "/d", some "u", some "o", some "n"⟩⟩⟩).2.world.dirs "/d" =
      false) ∧
    (∀ r, (clone_repository "https://github.com/a/b.git"
        ⟨"/t", CloneOutcome.success, false, false⟩
        ⟨⟨some "/d", some "u", some "o", some "n"⟩,
         ⟨fun x => x == "/d", some ⟨some "/d", some "u", some "o", some "n"⟩⟩⟩).2.world.stateFile =
      some r → r.path ≠ some "/d") := by
  have h := claim_C3_replace "https://github.com/a/b.git"
    ⟨"/t", CloneOutcome.success, false, false⟩
    ⟨⟨some "/d", some "u", some "o", some "n"⟩,
     ⟨fun x => x == "/d", some ⟨some "/d", some "u", some "o", some "n"⟩⟩⟩ "/d"
    rfl (by decide) (by decide) (by decide)
  exact ⟨h.1 rfl, h.2⟩

/-- Claim C4 counterexample: the claim quantifies over any scheme, but the
regex accepts only `http://` and `https://` prefixes; for the scheme `ssh`
with host `host` and nonempty segments `a`, `b`, parsing yields
`(absent, absent)` instead of the claimed `(some a, some b)`. -/
theorem claim_C4_counterexample :
    parse_repo_url "ssh://host/a/b" = (none, none) ∧
    parse_repo_url "ssh://host/a/b" ≠ (some "a", some "b") := by decide

/-- Claim C4 amended: for every URL of shape `scheme://host/O/N` or
`scheme://host/O/N.git` where the scheme is `http` or `https` (not any
scheme — see the counterexample), host nonempty and slash-free, and O, N
nonempty slash-free segments, the parser returns `(O, N)`; for the bare
form this needs N not to end in `.git` itself, since the `.git` suffix is
stripped exactly when trailing. -/
theorem claim_C4_scheme_url_parse (host o n : String)
    (hh : host ≠ "") (hh2 : ∀ c ∈ host.data, c ≠ '/')
    (hO : o ≠ "") (hO2 : ∀ c ∈ o.data, c ≠ '/')
    (hN : n ≠ "") (hN2 : ∀ c ∈ n.data, c ≠ '/') :
    ∀ scheme, (scheme = "http" ∨ scheme = "https") →
      parse_repo_url (scheme ++ "://" ++ host ++ "/" ++ o ++ "/" ++ n ++ ".git") =
        (some o, some n) ∧
      (endsWithGit n.data = false →
        parse_repo_url (scheme ++ "://" ++ host ++ "/" ++ o ++ "/" ++ n) =
          (some o, some n)) := by
  intro scheme hs
  constructor
  · have h := parse_scheme_shape scheme host o (n ++ ".git") hs hh hh2 hO hO2
      (gitSuffix_ne n) (gitSuffix_noSlash n hN2)
    rw [mk_strip_gitSuffix] at h
    rw [String.append_assoc (scheme ++ "://" ++ host ++ "/" ++ o ++ "/") n ".git"]
    exact h
  · intro hng
    have h := parse_scheme_shape scheme host o n hs hh hh2 hO hO2 hN hN2
    rw [stripGit_of_not hng, mkData] at h
    exact h

/-- Claim C4 witness: the amended theorem at `github.com`, owner `a`,
name `b`, for both schemes and both the suffixed and bare forms. -/
theorem claim_C4_witness :
    parse_repo_url ("http" ++ "://" ++ "github.com" ++ "/" ++ "a" ++ "/" ++ "b" ++ ".git") =
      (some "a", some "b") ∧
    parse_repo_url ("https" ++ "://" ++ "github.com" ++ "/" ++ "a" ++ "/" ++ "b") =
      (some "a", some "b") := by
  have h := claim_C4_scheme_url_parse "github.com" "a" "b" (by decide) (by decide)
    (by decide) (by decide) (by decide) (by decide)
  exact ⟨(h "http" (Or.inl rfl)).1, (h "https" (Or.inr rfl)).2 (by decide)⟩

/-- Claim C5 counterexample: the claim quantifies over any user, but the
regex requires the literal user `git`; for user `alice` with host `host`
and nonempty segments `a`, `b`, parsing yields `(absent, absent)` instead
of the claimed `(some a, some b)`. -/
theorem claim_C5_counterexample :
    parse_repo_url "alice@host:a/b" = (none, none) ∧
    parse_repo_url "alice@host:a/b" ≠ (some "a", some "b") := by decide

/-- Claim C5 amended: for every URL of shape `user@host:O/N` or
`user@host:O/N.git` where the user is literally `git` (not any user — see
the counterexample) and the host is a nonempty string of word characters,
dots and dashes (the regex class `[\w.-]`), with O, N nonempty slash-free
segments, the parser returns `(O, N)` identically to the scheme form; for
the bare form this needs N not to end in `.git` itself. -/
theorem claim_C5_ssh_url_parse (host o n : String)
    (hh : host ≠ "") (hh2 : ∀ c ∈ host.data, isWordDotDash c = true)
    (hO : o ≠ "") (hO2 : ∀ c ∈ o.data, c ≠ '/')
    (hN : n ≠ "") (hN2 : ∀ c ∈ n.data, c ≠ '/') :
    parse_repo_url ("git@" ++ host ++ ":" ++ o ++ "/" ++ n ++ ".git") =
      (some o, some n) ∧
    (endsWithGit n.data = false →
      parse_repo_url ("git@" ++ host ++ ":" ++ o ++ "/" ++ n) = (some o, some n)) := by
  constructor
  · have h := parse_ssh_shape host o (n ++ ".git") hh hh2 hO hO2
      (gitSuffix_ne n) (gitSuffix_noSlash n hN2)
    rw [mk_strip_gitSuffix] at h
    rw [String.append_assoc ("git@" ++ host ++ ":" ++ o ++ "/") n ".git"]
    exact h
  · intro hng
    have h := parse_ssh_shape host o n hh hh2 hO hO2 hN hN2
    rw [stripGit_of_not hng, mkData] at h
    exact h

/-- Claim C5 witness: the amended theorem at host `github.com`, owner
`owner`, name `repo`, suffixed and bare. -/
theorem claim_C5_witness :
    parse_repo_url ("git@" ++ "github.com" ++ ":" ++ "owner" ++ "/" ++ "repo" ++ ".git") =
      (some "owner", some "repo") ∧
    parse_repo_url ("git@" ++ "github.com" ++ ":" ++ "owner" ++ "/" ++ "repo") =
      (some "owner", some "repo") := by
  have h := claim_C5_ssh_url_parse "github.com" "owner" "repo" (by decide) (by decide)
    (by decide) (by decide) (by decide) (by decide)
  exact ⟨h.1, h.2 (by decide)⟩

/-- Claim C6: for every recognized URL (both the `https://host/...` and the
`git@host:` shapes) whose name segment N may contain internal dots (any
slash-free nonempty string), the parser returns the name with internal
dots preserved, removing only a final literal `.git`: the segment
`N ++ ".git"` parses to name N whatever N contains, and a segment N
without a trailing `.git` is returned unchanged. -/
theorem claim_C6_internal_dots (host o n : String)
    (hh : host ≠ "") (hh2 : ∀ c ∈ host.data, isWordDotDash c = true)
    (hO : o ≠ "") (hO2 : ∀ c ∈ o.data, c ≠ '/')
    (hN : n ≠ "") (hN2 : ∀ c ∈ n.data, c ≠ '/') :
    (parse_repo_url ("https" ++ "://" ++ host ++ "/" ++ o ++ "/" ++ n ++ ".git") =
        (some o, some n) ∧
      (endsWithGit n.data = false →
        parse_repo_url ("https" ++ "://" ++ host ++ "/" ++ o ++ "/" ++ n) =
          (some o, some n))) ∧
    (parse_repo_url ("git@" ++ host ++ ":" ++ o ++ "/" ++ n ++ ".git") =
        (some o, some n) ∧
      (endsWithGit n.data = false →
        parse_repo_url ("git@" ++ host ++ ":" ++ o ++ "/" ++ n) = (some o, some n))) := by
  have hh3 : ∀ c ∈ host.data, c ≠ '/' := wordDotDash_noSlash host hh2
  constructor
  · constructor
    · have h := parse_scheme_shape "https" host o (n ++ ".git") (Or.inr rfl) hh hh3 hO hO2
        (gitSuffix_ne n) (gitSuffix_noSlash n hN2)
      rw [mk_strip_gitSuffix] at h
      rw [String.append_assoc ("https" ++ "://" ++ host ++ "/" ++ o ++ "/") n ".git"]
      exact h
    · intro hng
      have h := parse_scheme_shape "https" host o n (Or.inr rfl) hh hh3 hO hO2 hN hN2
      rw [stripGit_of_not hng, mkData] at h
      exact h
  · constructor
    · have h := parse_ssh_shape host o (n ++ ".git") hh hh2 hO hO2
        (gitSuffix_ne n) (gitSuffix_noSlash n hN2)
      rw [mk_strip_gitSuffix] at h
      rw [String.append_assoc ("git@" ++ host ++ ":" ++ o ++ "/") n ".git"]
      exact h
    · intro hng
      have h := parse_ssh_shape host o n hh hh2 hO hO2 hN hN2
      rw [stripGit_of_not hng, mkData] at h
      exact h

/-- Claim C6 witness: the theorem at the dotted name `my.repo.name` of the
specification example. -/
theorem claim_C6_witness :
    parse_repo_url
        ("https" ++ "://" ++ "host" ++ "/" ++ "owner" ++ "/" ++ "my.repo.name" ++ ".git") =
      (some "owner", some "my.repo.name") ∧
    parse_repo_url ("https" ++ "://" ++ "host" ++ "/" ++ "owner" ++ "/" ++ "my.repo.name") =
      (some "owner", some "my.repo.name") := by
  have h := claim_C6_internal_dots "host" "owner" "my.repo.name" (by decide) (by decide)
    (by decide) (by decide) (by decide) (by decide)
  exact ⟨h.1.1, h.1.2 (by decide)⟩

/-- Claim C7: persisting a populated record (its path present) and loading
in a fresh process — where the in-memory default is the empty record —
returns the identical record provided the referenced directory still
exists, and returns the entirely empty record (never a partial one) when
it does not.  The hypothesis that no directory has the empty name reflects
`os.path.isdir("")` being false. -/
theorem claim_C7_roundtrip (w : World) (sess : ActiveSession) (p : String)
    (hp : sess.path = some p) (hwf : w.dirs "" = false) :
    (w.dirs p = true → load_state (save_state sess w) emptySession = sess) ∧
    (w.dirs p = false → load_state (save_state sess w) emptySession = emptySession) := by
  constructor
  · intro hdir
    have hne : (p == "") = false := by
      cases hpe : (p == "") with
      | false => rfl
      | true =>
        exfalso
        have hpp : p = "" := by simpa using hpe
        rw [hpp] at hdir
        rw [hdir] at hwf
        cases hwf
    simp [load_state, save_state, World.writeState, hp, strTruthy, hne, hdir]
  · intro hdir
    simp [load_state, save_state, World.writeState, hp, strTruthy, hdir]

/-- Claim C7 witness: a fully populated record round-trips when `/repo`
exists, and collapses to the empty record when it does not. -/
theorem claim_C7_witness :
    load_state
        (save_state ⟨some "/repo", some "https://github.com/a/b.git", some "a", some "b"⟩
          ⟨fun x => x == "/repo", none⟩)
        emptySession =
      ⟨some "/repo", some "https://github.com/a/b.git", some "a", some "b"⟩ ∧
    load_state
        (save_state ⟨some "/repo", some "https://github.com/a/b.git", some "a", some "b"⟩
          ⟨fun _ => false, none⟩)
        emptySession = emptySession := by
  have h1 := claim_C7_roundtrip ⟨fun x => x == "/repo", none⟩
    ⟨some "/repo", some "https://github.com/a/b.git", some "a", some "b"⟩ "/repo" rfl (by decide)
  have h2 := claim_C7_roundtrip ⟨fun _ => false, none⟩
    ⟨some "/repo", some "https://github.com/a/b.git", some "a", some "b"⟩ "/repo" rfl (by decide)
  exact ⟨h1.1 (by decide), h2.2 (by decide)⟩

/-- Claim C8: for a session with no path — as after no successful clone,
when owner is also absent — every session-gated operation's precondition
gate returns the fixed no-active-repository text.  Each gate is a pure
early-return check preceding any other work, so the session state is
untouched and no exception escapes (every tool encodes faults as returned
text). -/
theorem claim_C8_gates (s : ActiveSession) (hp : s.path = none) (ho : s.owner = none) :
    create_git_branch_gate s = some noActiveRepoMsg ∧
    git_commit_changes_gate s = some noActiveRepoMsg ∧
    git_push_branch_gate s = some noActiveRepoMsg ∧
    read_file_in_repo_gate s = some noActiveRepoMsg ∧
    write_file_in_repo_gate s = some noActiveRepoMsg ∧
    list_files_in_repo_gate s = some noActiveRepoMsg ∧
    create_github_pr_gate s = some noActiveRepoMsg := by
  simp [create_git_branch_gate, git_commit_changes_gate, git_push_branch_gate,
    read_file_in_repo_gate, write_file_in_repo_gate, list_files_in_repo_gate,
    create_github_pr_gate, hp, ho, truthyOpt]

/-- Claim C8 witness: the gates at the empty session. -/
theorem claim_C8_witness :
    create_git_branch_gate emptySession = some noActiveRepoMsg ∧
    git_commit_changes_gate emptySession = some noActiveRepoMsg ∧
    git_push_branch_gate emptySession = some noActiveRepoMsg ∧
    read_file_in_repo_gate emptySession = some noActiveRepoMsg ∧
    write_file_in_repo_gate emptySession = some noActiveRepoMsg ∧
    list_files_in_repo_gate emptySession = some noActiveRepoMsg ∧
    create_github_pr_gate emptySession = some noActiveRepoMsg :=
  claim_C8_gates emptySession rfl rfl

/-- Claim C9 counterexample: `os.path.join` lets the relative argument
escape the active repository root — an absolute `relative_file_path`
replaces the root entirely, and `..` components resolve above it — so the
claim that no input causes a file outside the root to be read or written
is false as stated. -/
theorem claim_C9_counterexample :
    read_file_in_repo_target ⟨some "/tmp/repo", none, none, none⟩ "/etc/passwd" =
      some "/etc/passwd" ∧
    isUnderRoot "/tmp/repo" "/etc/passwd" = false ∧
    write_file_in_repo_target ⟨some "/tmp/repo", none, none, none⟩ "../../etc/passwd" =
      some "/tmp/repo/../../etc/passwd" ∧
    isUnderRoot "/tmp/repo" "/tmp/repo/../../etc/passwd" = false := by decide

/-- Claim C9 amended: the file accessed by the read-file and write-file
operations lies under the active repository root provided the
relative path does not begin with a slash and contains no `..`
components; without those restrictions the computed path can escape the
root (see the counterexample).  The listing operation walks `os.walk` of
the root itself and is under it by construction. -/
theorem claim_C9_scoped (s : ActiveSession) (base rel : String)
    (hp : s.path = some base) (hb : base ≠ "")
    (hrel : rel.data.head? ≠ some '/')
    (hdd : ['.', '.'] ∉ (splitChars rel.data).filter (fun c => !c.isEmpty)) :
    ∃ full, read_file_in_repo_target s rel = some full ∧
      write_file_in_repo_target s rel = some full ∧
      isUnderRoot base full = true := by
  have hbne : base.data ≠ [] := dataNeNil hb
  have hstr : strTruthy base = true := by simp [strTruthy, beq_eq_false_iff_ne.mpr hb]
  refine ⟨osPathJoin base rel, ?_, ?_, ?_⟩
  · simp [read_file_in_repo_target, hp, hstr]
  · simp [write_file_in_repo_target, hp, hstr]
  · have hresolved :
        resolvedOf (osPathJoin base rel) = ((splitChars rel.data).filter
          (fun c => !c.isEmpty)).foldl resolveStep (resolvedOf base) := by
      unfold osPathJoin joinChars
      rw [if_neg hrel, if_neg hbne]
      by_cases hlast : base.data.getLast? = some '/'
      · rw [if_pos hlast]
        have hdec := ends_slash_decomp base.data hbne hlast
        have hjoin : base.data ++ rel.data = base.data.dropLast ++ '/' :: rel.data := by
          conv_lhs => rw [hdec]
          simp
        have hbase : splitChars base.data = splitChars base.data.dropLast ++ [[]] := by
          conv_lhs => rw [hdec]
          have := splitChars_append_slash base.data.dropLast []
          simpa [splitChars] using this
        unfold resolvedOf comps
        simp only [hjoin, splitChars_append_slash, hbase, List.filter_append]
        simp [List.foldl_append]
      · rw [if_neg hlast]
        unfold resolvedOf comps
        simp only [splitChars_append_slash, List.filter_append]
        simp [List.foldl_append]
    unfold isUnderRoot
    rw [hresolved]
    obtain ⟨tl, htl⟩ := foldl_resolve_extends _ (resolvedOf base) hdd
    rw [← htl]
    exact isPrefixOf_append_self _ _

/-- Claim C9 witness: a plain relative path stays under the root. -/
theorem claim_C9_witness :
    ∃ full, read_file_in_repo_target ⟨some "/tmp/repo", none, none, none⟩ "src/main.py" =
        some full ∧
      write_file_in_repo_target ⟨some "/tmp/repo", none, none, none⟩ "src/main.py" =
        some full ∧
      isUnderRoot "/tmp/repo" full = true :=
  claim_C9_scoped ⟨some "/tmp/repo", none, none, none⟩ "/tmp/repo" "src/main.py" rfl
    (by decide) (by decide) (by decide)

/-- Claim C10: a URL whose final path segment is exactly `.git` parses to
the owner together with a present-but-empty name; a successful clone of
such a URL records owner `"owner"` and name `""` in memory and in the
persisted record, and the pull-request gate then rejects the session with
the incomplete-identity message, because the empty string is falsy. -/
theorem claim_C10_dotgit_empty_name :
    parse_repo_url "https://host/owner/.git" = (some "owner", some "") ∧
    (clone_repository "https://host/owner/.git"
        ⟨"/t", CloneOutcome.success, false, false⟩
        ⟨emptySession, ⟨fun _ => false, none⟩⟩).2.mem.owner = some "owner" ∧
    (clone_repository "https://host/owner/.git"
        ⟨"/t", CloneOutcome.success, false, false⟩
        ⟨emptySession, ⟨fun _ => false, none⟩⟩).2.mem.name = some "" ∧
    (clone_repository "https://host/owner/.git"
        ⟨"/t", CloneOutcome.success, false, false⟩
        ⟨emptySession, ⟨fun _ => false, none⟩⟩).2.world.stateFile =
      some ⟨some "/t", some "https://host/owner/.git", some "owner", some ""⟩ ∧
    create_github_pr_gate ⟨some "/t", some "https://host/owner/.git", some "owner", some ""⟩ =
      some ownerNameIncompleteMsg := by decide

end GitPrMcp
